import Mathlib

/-
Verification of the request-dispatch layer of rust-playpen (src/lib.rs):
enum configuration types with their string parsers, the per-context LRU
execution cache, the `exec` dispatcher with its timeout annotation, and
the `highlight` helper. The sandbox runtime (the `docker` module) and the
highlighting subprocess are external collaborators, modelled as oracles
passed in as parameters.
-/

namespace Playpen

/-- Errors carried by `StringError` are plain description strings. -/
abbrev StringError := String

/-- I/O-class errors from the sandbox runtime, modelled abstractly. -/
abbrev IOError := String

/-- `ReleaseChannel` from src/lib.rs lines 43-48. -/
inductive ReleaseChannel
  | Stable
  | Beta
  | Nightly
deriving DecidableEq, Repr

/-- `impl FromStr for ReleaseChannel`, src/lib.rs lines 50-61: a Rust
string match is a sequence of exact equality tests. -/
def ReleaseChannel.from_str (s : String) : Except StringError ReleaseChannel :=
  if s = "stable" then .ok .Stable
  else if s = "beta" then .ok .Beta
  else if s = "nightly" then .ok .Nightly
  else .error ("unknown release channel " ++ s)

/-- `AsmFlavor`, src/lib.rs lines 116-119. -/
inductive AsmFlavor
  | Att
  | Intel
deriving DecidableEq, Repr

/-- `AsmFlavor::as_str`, src/lib.rs lines 122-127. -/
def AsmFlavor.as_str : AsmFlavor → String
  | .Att => "att"
  | .Intel => "intel"

/-- `impl FromStr for AsmFlavor`, src/lib.rs lines 130-140. -/
def AsmFlavor.from_str (s : String) : Except StringError AsmFlavor :=
  if s = "att" then .ok .Att
  else if s = "intel" then .ok .Intel
  else .error ("unknown asm dialect " ++ s)

/-- `OptLevel`, src/lib.rs lines 142-148. -/
inductive OptLevel
  | O0
  | O1
  | O2
  | O3
deriving DecidableEq, Repr

/-- `OptLevel::as_u8`, src/lib.rs lines 151-158.  The values fit in a
`u8` with no overflow, so `Nat` models them exactly. -/
def OptLevel.as_u8 : OptLevel → Nat
  | .O0 => 0
  | .O1 => 1
  | .O2 => 2
  | .O3 => 3

/-- `impl FromStr for OptLevel`, src/lib.rs lines 161-173. -/
def OptLevel.from_str (s : String) : Except StringError OptLevel :=
  if s = "0" then .ok .O0
  else if s = "1" then .ok .O1
  else if s = "2" then .ok .O2
  else if s = "3" then .ok .O3
  else .error ("unknown optimization level " ++ s)

/-- `CompileOutput`, src/lib.rs lines 175-179. -/
inductive CompileOutput
  | Asm
  | Llvm
  | Mir
deriving DecidableEq, Repr

/-- `CompileOutput::as_opts`, src/lib.rs lines 182-193. -/
def CompileOutput.as_opts : CompileOutput → List String
  | .Asm => ["--emit=asm"]
  | .Llvm => ["--emit=llvm-ir"]
  | .Mir => ["-Zunstable-options", "--unpretty=mir"]

/-- `impl FromStr for CompileOutput`, src/lib.rs lines 196-207. -/
def CompileOutput.from_str (s : String) : Except StringError CompileOutput :=
  if s = "asm" then .ok .Asm
  else if s = "llvm-ir" then .ok .Llvm
  else if s = "mir" then .ok .Mir
  else .error ("unknown output format " ++ s)

/-- The `CacheKey` struct local to `exec`, src/lib.rs lines 69-75.
`PartialEq`/`Eq`/`Hash` are derived, so equality is structural over all
four fields. -/
structure CacheKey where
  channel : ReleaseChannel
  cmd : String
  args : List String
  input : String
deriving DecidableEq, Repr

/-- Rust `ExitStatus` is an opaque platform status; the dispatcher only
stores, clones and returns it, so an integer code models it faithfully. -/
abbrev ExitStatus := Int

/-- The `(ExitStatus, Vec<u8>)` pairs cached and returned by `exec`;
output bytes are a list of byte values. -/
abbrev ExecResult := ExitStatus × List Nat

/-- Model of `lru_cache::LruCache`: a bounded association list ordered
most-recently-used first, with `capacity` fixed at construction.
The backing map keeps keys unique, so well-formed states have nodup keys
and at most `capacity` entries. -/
structure LruCache (K V : Type) where
  capacity : Nat
  entries : List (K × V)
deriving Repr

namespace LruCache

variable {K V : Type} [DecidableEq K]

/-- `LruCache::new(capacity)`: empty cache with the given capacity. -/
def new (K V : Type) (cap : Nat) : LruCache K V := ⟨cap, []⟩

/-- Pure lookup (no recency update): the value stored under `k`, if any. -/
def find? (c : LruCache K V) (k : K) : Option V :=
  (c.entries.find? (fun e => decide (e.1 = k))).map (fun e => e.2)

/-- `LruCache::get_mut`: on a hit the entry is refreshed, becoming the
most recently used; on a miss the cache is unchanged. -/
def get_mut (c : LruCache K V) (k : K) : Option V × LruCache K V :=
  match c.entries.find? (fun e => decide (e.1 = k)) with
  | none => (none, c)
  | some e =>
      (some e.2, ⟨c.capacity, e :: c.entries.eraseP (fun e => decide (e.1 = k))⟩)

/-- `LruCache::insert`: store `k ↦ v` as most recently used (replacing
any previous entry for `k`), then evict the least-recently-used entry if
the length now exceeds the capacity. -/
def insert (c : LruCache K V) (k : K) (v : V) : LruCache K V :=
  let l := (k, v) :: c.entries.eraseP (fun e => decide (e.1 = k))
  ⟨c.capacity, if c.capacity < l.length then l.dropLast else l⟩

end LruCache

/-- The per-context execution cache: `LruCache<CacheKey, (ExitStatus, Vec<u8>)>`
from src/lib.rs lines 77-80. -/
abbrev ExecCache := LruCache CacheKey ExecResult

/-- The capacity the thread-local cache is constructed with:
`LruCache::new(256)`, src/lib.rs line 79. -/
def cacheCapacity : Nat := 256

/-- The literal annotation `b"\ntimeout triggered!"` appended on timeout,
src/lib.rs line 108, as its byte values (the text is ASCII). -/
def timeoutMarker : List Nat := "\ntimeout triggered!".data.map Char.toNat

/-- The triple `(status, output, timed_out)` returned by a successful
`Container::run`. -/
structure RunOutcome where
  status : ExitStatus
  output : List Nat
  timedOut : Bool
deriving DecidableEq, Repr

/-- Outcome of one sandbox interaction: `Container::new` may fail, then
`Container::run` may fail, else a `RunOutcome` is produced. -/
inductive SandboxOutcome
  | createError (e : IOError)
  | runError (e : IOError)
  | success (r : RunOutcome)
deriving DecidableEq, Repr

/-- The sandbox-runtime oracle: given `(cmd, args, image, input)` it
yields the outcome of `Container::new` followed by `Container::run`. -/
abbrev SandboxRuntime := String → List String → String → String → SandboxOutcome

/-- Record of one invocation of the sandbox runtime: the `cmd`, `args`
and `image` passed to `Container::new`, the `input` bytes streamed to
`run`, and the wall-clock timeout in seconds (`Duration::new(5, 0)`). -/
structure SandboxCall where
  cmd : String
  args : List String
  image : String
  input : String
  timeoutSecs : Nat
deriving DecidableEq, Repr

/-- The inline `match channel` of src/lib.rs lines 96-100. -/
def ReleaseChannel.chanStr : ReleaseChannel → String
  | .Stable => "stable"
  | .Beta => "beta"
  | .Nightly => "nightly"

/-- `exec`, src/lib.rs lines 64-114, with the thread-local cache passed
and returned explicitly and the sandbox runtime as an oracle.  Also
returns the list of sandbox invocations performed by this call. -/
def exec (rt : SandboxRuntime) (channel : ReleaseChannel) (cmd : String)
    (args : List String) (input : String) (cache : ExecCache) :
    Except IOError ExecResult × ExecCache × List SandboxCall :=
  let key : CacheKey := ⟨channel, cmd, args, input⟩
  match cache.get_mut key with
  | (some prev, cache') => (.ok prev, cache', [])
  | (none, cache') =>
      let chan := channel.chanStr
      let container := "rust-" ++ chan
      let call : SandboxCall := ⟨cmd, args, container, input, 5⟩
      match rt cmd args container input with
      | .createError e => (.error e, cache', [call])
      | .runError e => (.error e, cache', [call])
      | .success r =>
          let output := if r.timedOut then r.output ++ timeoutMarker else r.output
          let cache'' := cache'.insert key (r.status, output)
          (.ok (r.status, output), cache'', [call])

/-- The inline `match output_format` of `highlight`, src/lib.rs lines
211-215: the lexer name handed to pygmentize. -/
def lexerFor : CompileOutput → String
  | .Asm => "gas"
  | .Llvm => "llvm"
  | .Mir => "text"

/-- Oracle for the highlighting subprocess: given the program name, its
argument list and the text streamed to stdin, yields `none` when the
subprocess cannot be spawned or its output cannot be collected, and
otherwise `(status.success(), captured stdout)`. -/
abbrev SpawnOracle := String → List String → String → Option (Bool × String)

/-- `highlight`, src/lib.rs lines 210-229.  Every `unwrap` and the
`assert!(output.status.success())` make a failure fatal for the call,
modelled as `none`. -/
def highlight (spawn : SpawnOracle) (output_format : CompileOutput)
    (output : String) : Option String :=
  let lexer := lexerFor output_format
  match spawn "pygmentize" ["-l", lexer, "-f", "html"] output with
  | none => none
  | some (succeeded, stdout) => if succeeded then some stdout else none

/-! Concrete fixtures used to exercise the model at specific inputs. -/

/-- A sandbox runtime that always completes normally. -/
def demoRuntime : SandboxRuntime := fun _ _ _ _ => .success ⟨0, [72, 105], false⟩

/-- A sandbox runtime whose run always hits the timeout. -/
def timeoutRuntime : SandboxRuntime := fun _ _ _ _ => .success ⟨9, [65, 66], true⟩

/-- A sandbox runtime where `Container::new` always fails. -/
def createFailRuntime : SandboxRuntime := fun _ _ _ _ => .createError "no such image"

/-- A highlighting subprocess that succeeds and wraps its stdin. -/
def demoSpawn : SpawnOracle := fun _ _ text => some (true, "<pre>" ++ text ++ "</pre>")

/-- Distinct cache keys used to fill a cache to capacity. -/
def bulkKey (i : Nat) : CacheKey :=
  ⟨.Stable, "cmd", [], String.mk [Char.ofNat (65 + i)]⟩

/-- A cache at its full capacity of 256 entries, most recent first:
`bulkKey 0` is the most recently used, `bulkKey 255` the least. -/
def fullCache : ExecCache :=
  ⟨256, (List.range 256).map (fun i => (bulkKey i, ((0 : Int), ([] : List Nat))))⟩

/-! General list lemmas used by the cache proofs. -/

/-- Erasing an element that a second predicate rejects does not change
what that second predicate finds. -/
theorem find?_eraseP_of_disjoint {α : Type} (p q : α → Bool) (l : List α)
    (h : ∀ e ∈ l, p e = true → q e = false) :
    (l.eraseP p).find? q = l.find? q := by
  induction l with
  | nil => rfl
  | cons x xs ih =>
      by_cases hp : p x = true
      · rw [List.eraseP_cons_of_pos hp,
          List.find?_cons_of_neg _ (by simp [h x (by simp) hp])]
      · rw [List.eraseP_cons_of_neg hp]
        by_cases hqx : q x = true
        · rw [List.find?_cons_of_pos _ hqx, List.find?_cons_of_pos _ hqx]
        · rw [List.find?_cons_of_neg _ hqx, List.find?_cons_of_neg _ hqx]
          exact ih (fun e he hpe => h e (by simp [he]) hpe)

/-- Dropping the last element either leaves `find?` unchanged or makes
it miss. -/
theorem find?_dropLast_cases {α : Type} (q : α → Bool) (l : List α) :
    l.dropLast.find? q = l.find? q ∨ l.dropLast.find? q = none := by
  rcases eq_or_ne l [] with rfl | hne
  · exact Or.inr rfl
  · cases hfd : l.dropLast.find? q with
    | none => exact Or.inr rfl
    | some x =>
        left
        conv_rhs => rw [← List.dropLast_append_getLast hne]
        rw [List.find?_append, hfd]
        rfl

/-- In a list whose first components are distinct, `find?` keyed on a
member's first component returns exactly that member. -/
theorem find?_fst_of_nodup {K V : Type} [DecidableEq K]
    (l : List (K × V)) (e : K × V)
    (hnodup : (l.map Prod.fst).Nodup) (hmem : e ∈ l) :
    l.find? (fun x => decide (x.1 = e.1)) = some e := by
  induction l with
  | nil => cases hmem
  | cons x xs ih =>
      rw [List.map_cons, List.nodup_cons] at hnodup
      rcases List.mem_cons.mp hmem with rfl | hmem'
      · exact List.find?_cons_of_pos _ (by simp)
      · have hne : x.1 ≠ e.1 := by
          intro hfst
          exact hnodup.1 (hfst ▸ List.mem_map_of_mem Prod.fst hmem')
        rw [List.find?_cons_of_neg _ (by simp [hne])]
        exact ih hnodup.2 hmem'

/-! Lemmas about the LruCache model. -/

/-- A `find?` miss means no entry carries the key. -/
theorem LruCache.find?_eq_none_iff {K V : Type} [DecidableEq K]
    (c : LruCache K V) (k : K) :
    c.find? k = none ↔ ∀ e ∈ c.entries, e.1 ≠ k := by
  unfold LruCache.find?
  rw [Option.map_eq_none', List.find?_eq_none]
  simp

/-- On a miss, `get_mut` reports `none` and leaves the cache unchanged. -/
theorem LruCache.get_mut_of_find?_none {K V : Type} [DecidableEq K]
    (c : LruCache K V) (k : K) (h : c.find? k = none) :
    c.get_mut k = (none, c) := by
  have hfd : c.entries.find? (fun e => decide (e.1 = k)) = none := by
    unfold LruCache.find? at h
    exact Option.map_eq_none'.mp h
  unfold LruCache.get_mut
  rw [hfd]

/-- `get_mut` on a cache whose most recent entry carries the key is a
hit that returns that entry's value and leaves the cache unchanged. -/
theorem LruCache.get_mut_cons_self {K V : Type} [DecidableEq K]
    (cap : Nat) (k : K) (v : V) (rest : List (K × V)) :
    (LruCache.mk cap ((k, v) :: rest)).get_mut k =
      (some v, LruCache.mk cap ((k, v) :: rest)) := by
  unfold LruCache.get_mut
  rw [List.find?_cons_of_pos _ (by simp), List.eraseP_cons_of_pos (by simp)]

/-- After a hit, repeating `get_mut` gives the same value and no further
change: the refreshed entry sits at the front. -/
theorem LruCache.get_mut_idem {K V : Type} [DecidableEq K]
    (c c₂ : LruCache K V) (k : K) (v : V)
    (h : c.get_mut k = (some v, c₂)) :
    c₂.get_mut k = (some v, c₂) := by
  unfold LruCache.get_mut at h
  cases hfd : c.entries.find? (fun e => decide (e.1 = k)) with
  | none => rw [hfd] at h; cases h
  | some e =>
      rw [hfd] at h
      have hek : e.1 = k := by simpa using List.find?_some hfd
      obtain ⟨hv, hc₂⟩ := Prod.mk.injEq .. ▸ h
      cases e with
      | mk ek ev =>
          cases hek
          cases Option.some.injEq .. ▸ hv
          rw [← hc₂]
          exact LruCache.get_mut_cons_self ..

/-- A positive-capacity cache keeps a freshly inserted entry at the
front. -/
theorem LruCache.insert_entries_cons {K V : Type} [DecidableEq K]
    (c : LruCache K V) (k : K) (v : V) (hcap : 0 < c.capacity) :
    ∃ rest, (c.insert k v).entries = (k, v) :: rest := by
  unfold LruCache.insert
  by_cases hlt :
      c.capacity < ((k, v) :: c.entries.eraseP fun e => decide (e.1 = k)).length
  · simp only [if_pos hlt]
    cases herase : c.entries.eraseP (fun e => decide (e.1 = k)) with
    | nil =>
        exfalso
        rw [herase] at hlt
        simp at hlt
        omega
    | cons a as =>
        rw [List.dropLast_cons_of_ne_nil (by simp)]
        exact ⟨_, rfl⟩
  · simp only [if_neg hlt]
    exact ⟨_, rfl⟩

/-- Looking up a freshly inserted key hits the inserted value. -/
theorem LruCache.find?_insert_self {K V : Type} [DecidableEq K]
    (c : LruCache K V) (k : K) (v : V) (hcap : 0 < c.capacity) :
    (c.insert k v).find? k = some v := by
  obtain ⟨rest, hr⟩ := LruCache.insert_entries_cons c k v hcap
  unfold LruCache.find?
  rw [hr, List.find?_cons_of_pos _ (by simp)]
  rfl

/-- `get_mut` right after `insert` of the same key hits the inserted
value and changes nothing. -/
theorem LruCache.get_mut_insert_self {K V : Type} [DecidableEq K]
    (c : LruCache K V) (k : K) (v : V) (hcap : 0 < c.capacity) :
    (c.insert k v).get_mut k = (some v, c.insert k v) := by
  obtain ⟨rest, hr⟩ := LruCache.insert_entries_cons c k v hcap
  have hmk : c.insert k v = LruCache.mk (c.insert k v).capacity ((k, v) :: rest) := by
    rw [← hr]
  rw [hmk, LruCache.get_mut_cons_self]

/-- Inserting under one key either leaves lookups of a different key
unchanged or (through eviction) makes them miss; it never makes a
different key hit the inserted value. -/
theorem LruCache.find?_insert_other {K V : Type} [DecidableEq K]
    (c : LruCache K V) (k k' : K) (v : V) (hne : k ≠ k') :
    (c.insert k v).find? k' = c.find? k' ∨ (c.insert k v).find? k' = none := by
  unfold LruCache.insert LruCache.find?
  simp only []
  have hstep :
      ((k, v) :: c.entries.eraseP fun e => decide (e.1 = k)).find?
          (fun e => decide (e.1 = k')) =
        c.entries.find? (fun e => decide (e.1 = k')) := by
    rw [List.find?_cons_of_neg _ (by simp [hne])]
    exact find?_eraseP_of_disjoint _ _ _ (fun e _ hpe => by
      simp only [decide_eq_true_eq] at hpe
      simp only [decide_eq_false_iff_not]
      rw [hpe]
      exact hne)
  by_cases hlt :
      c.capacity < ((k, v) :: c.entries.eraseP fun e => decide (e.1 = k)).length
  · rw [if_pos hlt]
    rcases find?_dropLast_cases (fun e => decide (e.1 = k'))
        ((k, v) :: c.entries.eraseP fun e => decide (e.1 = k)) with hcase | hcase
    · left
      rw [hcase, hstep]
    · right
      rw [hcase]
      rfl
  · rw [if_neg hlt]
    left
    rw [hstep]

/-- C2: two cache keys are equal iff all four fields — channel, command,
arguments and input — are identical, with no normalization; and a
request under one key never retrieves a result cached under a different
key (a lookup after inserting under a distinct key either sees what it
saw before, or misses because of eviction). -/
theorem cacheKey_exact_match_semantics (k₁ k₂ : CacheKey) :
    (k₁ = k₂ ↔
      k₁.channel = k₂.channel ∧ k₁.cmd = k₂.cmd ∧
        k₁.args = k₂.args ∧ k₁.input = k₂.input) ∧
    (∀ (c : ExecCache) (v : ExecResult), k₁ ≠ k₂ →
      (c.insert k₁ v).find? k₂ = c.find? k₂ ∨ (c.insert k₁ v).find? k₂ = none) := by
  constructor
  · constructor
    · rintro rfl
      exact ⟨rfl, rfl, rfl, rfl⟩
    · obtain ⟨a₁, b₁, c₁, d₁⟩ := k₁
      obtain ⟨a₂, b₂, c₂, d₂⟩ := k₂
      rintro ⟨h1, h2, h3, h4⟩
      simp_all
  · intro c v hne
    exact LruCache.find?_insert_other c k₁ k₂ v hne

/-- Witness for C2 at concrete distinct keys differing only in `cmd`. -/
theorem cacheKey_exact_match_semantics_witness :
    ((LruCache.new CacheKey ExecResult 256).insert
        ⟨.Stable, "evaluate.sh", [], "x"⟩ (0, [72])).find?
          ⟨.Stable, "compile.sh", [], "x"⟩ =
      (LruCache.new CacheKey ExecResult 256).find? ⟨.Stable, "compile.sh", [], "x"⟩ ∨
    ((LruCache.new CacheKey ExecResult 256).insert
        ⟨.Stable, "evaluate.sh", [], "x"⟩ (0, [72])).find?
          ⟨.Stable, "compile.sh", [], "x"⟩ = none :=
  (cacheKey_exact_match_semantics ⟨.Stable, "evaluate.sh", [], "x"⟩
      ⟨.Stable, "compile.sh", [], "x"⟩).2
    (LruCache.new CacheKey ExecResult 256) (0, [72]) (by decide)

/-- C6: each of the four enum parsers is total: every string of its
fixed case-sensitive vocabulary parses to the corresponding variant, and
every other string fails with an error message containing the
unrecognized input. -/
theorem parse_functions_total :
    (ReleaseChannel.from_str "stable" = .ok .Stable ∧
     ReleaseChannel.from_str "beta" = .ok .Beta ∧
     ReleaseChannel.from_str "nightly" = .ok .Nightly ∧
     AsmFlavor.from_str "att" = .ok .Att ∧
     AsmFlavor.from_str "intel" = .ok .Intel ∧
     OptLevel.from_str "0" = .ok .O0 ∧
     OptLevel.from_str "1" = .ok .O1 ∧
     OptLevel.from_str "2" = .ok .O2 ∧
     OptLevel.from_str "3" = .ok .O3 ∧
     CompileOutput.from_str "asm" = .ok .Asm ∧
     CompileOutput.from_str "llvm-ir" = .ok .Llvm ∧
     CompileOutput.from_str "mir" = .ok .Mir) ∧
    (∀ s : String, s ∉ ["stable", "beta", "nightly"] →
      ∃ m, ReleaseChannel.from_str s = .error m ∧ ∃ pre suf, m = pre ++ s ++ suf) ∧
    (∀ s : String, s ∉ ["att", "intel"] →
      ∃ m, AsmFlavor.from_str s = .error m ∧ ∃ pre suf, m = pre ++ s ++ suf) ∧
    (∀ s : String, s ∉ ["0", "1", "2", "3"] →
      ∃ m, OptLevel.from_str s = .error m ∧ ∃ pre suf, m = pre ++ s ++ suf) ∧
    (∀ s : String, s ∉ ["asm", "llvm-ir", "mir"] →
      ∃ m, CompileOutput.from_str s = .error m ∧ ∃ pre suf, m = pre ++ s ++ suf) := by
  refine ⟨⟨rfl, rfl, rfl, rfl, rfl, rfl, rfl, rfl, rfl, rfl, rfl, rfl⟩, ?_, ?_, ?_, ?_⟩
  · intro s hs
    simp only [List.mem_cons, List.not_mem_nil, or_false, not_or] at hs
    obtain ⟨h1, h2, h3⟩ := hs
    refine ⟨_, by rw [ReleaseChannel.from_str, if_neg h1, if_neg h2, if_neg h3],
      "unknown release channel ", "", ?_⟩
    rw [String.append_empty]
  · intro s hs
    simp only [List.mem_cons, List.not_mem_nil, or_false, not_or] at hs
    obtain ⟨h1, h2⟩ := hs
    refine ⟨_, by rw [AsmFlavor.from_str, if_neg h1, if_neg h2],
      "unknown asm dialect ", "", ?_⟩
    rw [String.append_empty]
  · intro s hs
    simp only [List.mem_cons, List.not_mem_nil, or_false, not_or] at hs
    obtain ⟨h1, h2, h3, h4⟩ := hs
    refine ⟨_, by rw [OptLevel.from_str, if_neg h1, if_neg h2, if_neg h3, if_neg h4],
      "unknown optimization level ", "", ?_⟩
    rw [String.append_empty]
  · intro s hs
    simp only [List.mem_cons, List.not_mem_nil, or_false, not_or] at hs
    obtain ⟨h1, h2, h3⟩ := hs
    refine ⟨_, by rw [CompileOutput.from_str, if_neg h1, if_neg h2, if_neg h3],
      "unknown output format ", "", ?_⟩
    rw [String.append_empty]

/-- Witness for C6 at the spec's example invalid input. -/
theorem parse_functions_total_witness :
    ∃ m, ReleaseChannel.from_str "stabl" = .error m ∧
      ∃ pre suf, m = pre ++ "stabl" ++ suf :=
  parse_functions_total.2.1 "stabl" (by decide)

/-- C9: parsing round-trips through each variant's externally visible
string: `AsmFlavor::from_str` inverts `as_str`, and `OptLevel::from_str`
inverts the decimal rendering of `as_u8`. -/
theorem parse_round_trip :
    (∀ f : AsmFlavor, AsmFlavor.from_str f.as_str = .ok f) ∧
    (∀ l : OptLevel, OptLevel.from_str (toString l.as_u8) = .ok l) := by
  constructor
  · intro f
    cases f <;> rfl
  · intro l
    cases l <;> rfl

/-- C8: `highlight` maps Asm to the "gas" lexer, Llvm to "llvm" and Mir
to "text", invokes pygmentize with that lexer and the HTML formatter on
the given text, returns the full captured stdout on success, and fails
fatally (no fallback) on spawn failure or non-success exit. -/
theorem highlight_contract (sp : SpawnOracle) (k : CompileOutput) (text out : String) :
    (lexerFor .Asm = "gas" ∧ lexerFor .Llvm = "llvm" ∧ lexerFor .Mir = "text") ∧
    (sp "pygmentize" ["-l", lexerFor k, "-f", "html"] text = some (true, out) →
      highlight sp k text = some out) ∧
    (sp "pygmentize" ["-l", lexerFor k, "-f", "html"] text = none →
      highlight sp k text = none) ∧
    (sp "pygmentize" ["-l", lexerFor k, "-f", "html"] text = some (false, out) →
      highlight sp k text = none) := by
  refine ⟨⟨rfl, rfl, rfl⟩, ?_, ?_, ?_⟩ <;>
    · intro h
      simp [highlight, h]

/-- Witness for C8: a successful pygmentize run's stdout is returned. -/
theorem highlight_contract_witness :
    highlight demoSpawn .Llvm "target triple" =
      some ("<pre>" ++ "target triple" ++ "</pre>") :=
  (highlight_contract demoSpawn .Llvm "target triple"
      ("<pre>" ++ "target triple" ++ "</pre>")).2.1 rfl

/-! Reduction lemmas for the `exec` dispatcher. -/

/-- `get_mut` reporting a miss leaves the cache unchanged, and the key
is indeed absent. -/
theorem LruCache.get_mut_none_eq {K V : Type} [DecidableEq K]
    (c c₂ : LruCache K V) (k : K) (h : c.get_mut k = (none, c₂)) :
    c₂ = c ∧ c.find? k = none := by
  unfold LruCache.get_mut at h
  cases hfd : c.entries.find? (fun e => decide (e.1 = k)) with
  | none =>
      rw [hfd] at h
      injection h with h1 h2
      refine ⟨h2.symm, ?_⟩
      unfold LruCache.find?
      rw [hfd]
      rfl
  | some e =>
      rw [hfd] at h
      injection h with h1 h2
      cases h1

/-- On a cache hit, `exec` returns the stored pair, only refreshes the
entry's recency, and performs no sandbox call. -/
theorem exec_eq_of_get_mut_hit (rt : SandboxRuntime) (channel : ReleaseChannel)
    (cmd : String) (args : List String) (input : String)
    (c c₂ : ExecCache) (v : ExecResult)
    (h : c.get_mut ⟨channel, cmd, args, input⟩ = (some v, c₂)) :
    exec rt channel cmd args input c = (.ok v, c₂, []) := by
  simp only [exec]
  rw [h]

/-- On a cache miss, `exec` reduces to one sandbox interaction against
the image `"rust-" ++ channel.chanStr`. -/
theorem exec_eq_of_miss (rt : SandboxRuntime) (channel : ReleaseChannel)
    (cmd : String) (args : List String) (input : String) (c : ExecCache)
    (hmiss : c.find? ⟨channel, cmd, args, input⟩ = none) :
    exec rt channel cmd args input c =
      match rt cmd args ("rust-" ++ channel.chanStr) input with
      | .createError e =>
          (.error e, c, [⟨cmd, args, "rust-" ++ channel.chanStr, input, 5⟩])
      | .runError e =>
          (.error e, c, [⟨cmd, args, "rust-" ++ channel.chanStr, input, 5⟩])
      | .success r =>
          let output := if r.timedOut then r.output ++ timeoutMarker else r.output
          (.ok (r.status, output),
           c.insert ⟨channel, cmd, args, input⟩ (r.status, output),
           [⟨cmd, args, "rust-" ++ channel.chanStr, input, 5⟩]) := by
  have hget := LruCache.get_mut_of_find?_none c _ hmiss
  simp only [exec]
  rw [hget]

/-- C1: a second `exec` call with the identical `(channel, command,
arguments, input)`, made while the first call's entry is still cached,
returns a result structurally equal to the first call's and performs no
sandbox invocation (empty call log). -/
theorem exec_cache_hit_equivalence (rt : SandboxRuntime)
    (channel : ReleaseChannel) (cmd : String) (args : List String)
    (input : String) (c c' : ExecCache) (r : ExecResult)
    (log : List SandboxCall) (hcap : 0 < c.capacity)
    (h : exec rt channel cmd args input c = (.ok r, c', log)) :
    exec rt channel cmd args input c' = (.ok r, c', []) := by
  cases hget : c.get_mut ⟨channel, cmd, args, input⟩ with
  | mk o c₂ =>
    cases o with
    | some v =>
        rw [exec_eq_of_get_mut_hit rt channel cmd args input c c₂ v hget] at h
        simp only [Prod.mk.injEq, Except.ok.injEq] at h
        obtain ⟨h1, h2, h3⟩ := h
        subst h1
        subst h2
        exact exec_eq_of_get_mut_hit rt channel cmd args input _ _ _
          (LruCache.get_mut_idem c _ _ v hget)
    | none =>
        obtain ⟨hc₂, hmiss⟩ := LruCache.get_mut_none_eq c c₂ _ hget
        rw [exec_eq_of_miss rt channel cmd args input c hmiss] at h
        cases hrt : rt cmd args ("rust-" ++ channel.chanStr) input with
        | createError e =>
            rw [hrt] at h
            simp at h
        | runError e =>
            rw [hrt] at h
            simp at h
        | success res =>
            rw [hrt] at h
            simp only [Prod.mk.injEq, Except.ok.injEq] at h
            obtain ⟨h1, h2, h3⟩ := h
            subst h1
            subst h2
            exact exec_eq_of_get_mut_hit rt channel cmd args input _ _ _
              (LruCache.get_mut_insert_self c _ _ hcap)

/-- Witness for C1: a call that populated the cache followed by an
identical call that is answered from the cache with no sandbox call. -/
theorem exec_cache_hit_equivalence_witness :
    exec demoRuntime .Stable "evaluate.sh" [] "code"
        ((LruCache.new CacheKey ExecResult 256).insert
          ⟨.Stable, "evaluate.sh", [], "code"⟩ (0, [72, 105])) =
      (.ok (0, [72, 105]),
       (LruCache.new CacheKey ExecResult 256).insert
         ⟨.Stable, "evaluate.sh", [], "code"⟩ (0, [72, 105]),
       []) :=
  exec_cache_hit_equivalence demoRuntime .Stable "evaluate.sh" [] "code"
    (LruCache.new CacheKey ExecResult 256)
    ((LruCache.new CacheKey ExecResult 256).insert
      ⟨.Stable, "evaluate.sh", [], "code"⟩ (0, [72, 105]))
    (0, [72, 105])
    [⟨"evaluate.sh", [], "rust-" ++ ReleaseChannel.chanStr .Stable, "code", 5⟩]
    (by decide) (by rfl)

/-- C3: on a miss whose sandbox run reports a timeout, `exec` returns
the captured bytes with the literal marker appended, the runtime's exit
status as-is, and caches that annotated pair under the request key
exactly like a non-timeout result. -/
theorem exec_timeout_annotation (rt : SandboxRuntime)
    (channel : ReleaseChannel) (cmd : String) (args : List String)
    (input : String) (c : ExecCache) (st : ExitStatus) (out : List Nat)
    (hmiss : c.find? ⟨channel, cmd, args, input⟩ = none)
    (hrun : rt cmd args ("rust-" ++ channel.chanStr) input =
      .success ⟨st, out, true⟩) :
    exec rt channel cmd args input c =
      (.ok (st, out ++ timeoutMarker),
       c.insert ⟨channel, cmd, args, input⟩ (st, out ++ timeoutMarker),
       [⟨cmd, args, "rust-" ++ channel.chanStr, input, 5⟩]) := by
  rw [exec_eq_of_miss rt channel cmd args input c hmiss, hrun]
  rfl

/-- Witness for C3 with a runtime that times out after emitting two
bytes. -/
theorem exec_timeout_annotation_witness :
    exec timeoutRuntime .Stable "evaluate.sh" [] "loop"
        (LruCache.new CacheKey ExecResult 256) =
      (.ok (9, [65, 66] ++ timeoutMarker),
       (LruCache.new CacheKey ExecResult 256).insert
         ⟨.Stable, "evaluate.sh", [], "loop"⟩ (9, [65, 66] ++ timeoutMarker),
       [⟨"evaluate.sh", [], "rust-" ++ ReleaseChannel.chanStr .Stable, "loop", 5⟩]) :=
  exec_timeout_annotation timeoutRuntime .Stable "evaluate.sh" [] "loop"
    (LruCache.new CacheKey ExecResult 256) 9 [65, 66] (by rfl) (by rfl)

/-- C4: when sandbox creation or the sandboxed run fails, `exec`
propagates the I/O error and returns the cache unchanged: nothing is
inserted and no entry is modified. -/
theorem exec_error_atomicity (rt : SandboxRuntime)
    (channel : ReleaseChannel) (cmd : String) (args : List String)
    (input : String) (c : ExecCache) (e : IOError)
    (hmiss : c.find? ⟨channel, cmd, args, input⟩ = none)
    (hrt : rt cmd args ("rust-" ++ channel.chanStr) input = .createError e ∨
           rt cmd args ("rust-" ++ channel.chanStr) input = .runError e) :
    exec rt channel cmd args input c =
      (.error e, c, [⟨cmd, args, "rust-" ++ channel.chanStr, input, 5⟩]) := by
  rw [exec_eq_of_miss rt channel cmd args input c hmiss]
  rcases hrt with h | h <;> rw [h]

/-- Witness for C4: a failing `Container::new` leaves the empty cache
empty and surfaces the error. -/
theorem exec_error_atomicity_witness :
    exec createFailRuntime .Stable "evaluate.sh" [] "x"
        (LruCache.new CacheKey ExecResult 256) =
      (.error "no such image", LruCache.new CacheKey ExecResult 256,
       [⟨"evaluate.sh", [], "rust-" ++ ReleaseChannel.chanStr .Stable, "x", 5⟩]) :=
  exec_error_atomicity createFailRuntime .Stable "evaluate.sh" [] "x"
    (LruCache.new CacheKey ExecResult 256) "no such image"
    (by rfl) (Or.inl (by rfl))

/-- C7: on a miss, `exec` performs exactly one sandbox interaction whose
image identifier is `"rust-"` concatenated with the channel string, and
the scheme resolves Stable, Beta and Nightly to `"rust-stable"`,
`"rust-beta"` and `"rust-nightly"`. -/
theorem exec_image_naming (rt : SandboxRuntime) (channel : ReleaseChannel)
    (cmd : String) (args : List String) (input : String) (c : ExecCache)
    (hmiss : c.find? ⟨channel, cmd, args, input⟩ = none) :
    (exec rt channel cmd args input c).2.2 =
      [⟨cmd, args, "rust-" ++ channel.chanStr, input, 5⟩] ∧
    "rust-" ++ ReleaseChannel.chanStr .Stable = "rust-stable" ∧
    "rust-" ++ ReleaseChannel.chanStr .Beta = "rust-beta" ∧
    "rust-" ++ ReleaseChannel.chanStr .Nightly = "rust-nightly" := by
  refine ⟨?_, rfl, rfl, rfl⟩
  rw [exec_eq_of_miss rt channel cmd args input c hmiss]
  cases rt cmd args ("rust-" ++ channel.chanStr) input <;> rfl

/-- Witness for C7 on the nightly channel. -/
theorem exec_image_naming_witness :
    (exec demoRuntime .Nightly "compile.sh" ["--emit=asm"] "x"
        (LruCache.new CacheKey ExecResult 256)).2.2 =
      [⟨"compile.sh", ["--emit=asm"],
        "rust-" ++ ReleaseChannel.chanStr .Nightly, "x", 5⟩] ∧
    "rust-" ++ ReleaseChannel.chanStr .Stable = "rust-stable" ∧
    "rust-" ++ ReleaseChannel.chanStr .Beta = "rust-beta" ∧
    "rust-" ++ ReleaseChannel.chanStr .Nightly = "rust-nightly" :=
  exec_image_naming demoRuntime .Nightly "compile.sh" ["--emit=asm"] "x"
    (LruCache.new CacheKey ExecResult 256) (by rfl)

/-- C10: after an `exec` call that returns Ok via the miss path, the
cache holds, under the request key, exactly the `(status, output)` pair
the caller received. -/
theorem exec_miss_populates_cache (rt : SandboxRuntime)
    (channel : ReleaseChannel) (cmd : String) (args : List String)
    (input : String) (c c' : ExecCache) (st : ExitStatus) (out : List Nat)
    (log : List SandboxCall) (hcap : 0 < c.capacity)
    (hmiss : c.find? ⟨channel, cmd, args, input⟩ = none)
    (h : exec rt channel cmd args input c = (.ok (st, out), c', log)) :
    c'.find? ⟨channel, cmd, args, input⟩ = some (st, out) := by
  rw [exec_eq_of_miss rt channel cmd args input c hmiss] at h
  cases hrt : rt cmd args ("rust-" ++ channel.chanStr) input with
  | createError e =>
      rw [hrt] at h
      simp at h
  | runError e =>
      rw [hrt] at h
      simp at h
  | success res =>
      rw [hrt] at h
      simp only [Prod.mk.injEq, Except.ok.injEq] at h
      obtain ⟨h1, h2, h3⟩ := h
      rw [← h2, ← h1.1, ← h1.2]
      exact LruCache.find?_insert_self c _ _ hcap

/-- Witness for C10: after a fresh run, the returned pair is retrievable
under the request key. -/
theorem exec_miss_populates_cache_witness :
    ((LruCache.new CacheKey ExecResult 256).insert
        ⟨.Stable, "evaluate.sh", [], "code"⟩ (0, [72, 105])).find?
      ⟨.Stable, "evaluate.sh", [], "code"⟩ = some (0, [72, 105]) :=
  exec_miss_populates_cache demoRuntime .Stable "evaluate.sh" [] "code"
    (LruCache.new CacheKey ExecResult 256)
    ((LruCache.new CacheKey ExecResult 256).insert
      ⟨.Stable, "evaluate.sh", [], "code"⟩ (0, [72, 105]))
    0 [72, 105]
    [⟨"evaluate.sh", [], "rust-" ++ ReleaseChannel.chanStr .Stable, "code", 5⟩]
    (by decide) (by rfl) (by rfl)

/-- `Char.ofNat` is injective below the surrogate range. -/
theorem char_ofNat_inj_below (a b : Nat) (ha : a < 55296) (hb : b < 55296)
    (h : Char.ofNat a = Char.ofNat b) : a = b := by
  have hta : (Char.ofNat a).toNat = a := by
    unfold Char.ofNat
    rw [dif_pos (Or.inl ha)]
    rfl
  have htb : (Char.ofNat b).toNat = b := by
    unfold Char.ofNat
    rw [dif_pos (Or.inl hb)]
    rfl
  rw [← hta, ← htb, h]

/-- The keys used to fill the witness cache are pairwise distinct. -/
theorem bulkKey_inj (i j : Nat) (hi : i < 512) (hj : j < 512)
    (h : bulkKey i = bulkKey j) : i = j := by
  unfold bulkKey at h
  injection h with h1 h2 h3 h4
  injection h4 with h5
  injection h5 with h6 h7
  have := char_ofNat_inj_below (65 + i) (65 + j) (by omega) (by omega) h6
  omega

/-- C5: with the cache at its fixed capacity of 256 distinct entries,
inserting a fresh key keeps the size at 256, evicts exactly the
least-recently-used entry (which then misses), keeps every other entry
retrievable, makes the new key hit, and in general an insert never grows
the cache beyond its capacity. -/
theorem cache_eviction_at_capacity (c : ExecCache) (k : CacheKey)
    (v : ExecResult) (last : CacheKey × ExecResult)
    (hcap : c.capacity = 256)
    (hlen : c.entries.length = 256)
    (hnodup : (c.entries.map Prod.fst).Nodup)
    (hfresh : c.find? k = none)
    (hlast : c.entries.getLast? = some last) :
    (c.insert k v).entries.length = 256 ∧
    (c.insert k v).entries = (k, v) :: c.entries.dropLast ∧
    (c.insert k v).find? last.1 = none ∧
    (∀ e ∈ c.entries.dropLast, (c.insert k v).find? e.1 = some e.2) ∧
    (c.insert k v).find? k = some v ∧
    (∀ (d : ExecCache) (k' : CacheKey) (v' : ExecResult),
      d.entries.length ≤ d.capacity →
      (d.insert k' v').entries.length ≤ d.capacity) := by
  have hne : c.entries ≠ [] := by
    intro h0
    rw [h0] at hlen
    simp at hlen
  have hkeys : ∀ e ∈ c.entries, e.1 ≠ k := (LruCache.find?_eq_none_iff c k).mp hfresh
  have herase : c.entries.eraseP (fun e => decide (e.1 = k)) = c.entries :=
    List.eraseP_of_forall_not (fun a ha => by simp [hkeys a ha])
  have hentries : (c.insert k v).entries = (k, v) :: c.entries.dropLast := by
    simp only [LruCache.insert]
    rw [herase, if_pos (by rw [hcap, List.length_cons, hlen]; omega),
      List.dropLast_cons_of_ne_nil hne]
  have hgl := List.getLast?_eq_getLast_of_ne_nil hne
  rw [hgl] at hlast
  injection hlast with hl
  have hsplit : c.entries.dropLast ++ [last] = c.entries := by
    rw [← hl]
    exact List.dropLast_append_getLast hne
  have hlast_mem : last ∈ c.entries := by
    rw [← hsplit]
    simp
  rw [← hsplit, List.map_append] at hnodup
  rw [List.nodup_append] at hnodup
  obtain ⟨hn1, hn2, hdisj⟩ := hnodup
  have hlast_notin : last.1 ∉ c.entries.dropLast.map Prod.fst := by
    intro hmem
    exact hdisj hmem (by simp)
  refine ⟨?_, hentries, ?_, ?_, ?_, ?_⟩
  · rw [hentries, List.length_cons, List.length_dropLast, hlen]
  · have hnone :
        ((k, v) :: c.entries.dropLast).find? (fun e => decide (e.1 = last.1)) = none := by
      rw [List.find?_eq_none]
      intro x hx
      rcases List.mem_cons.mp hx with rfl | hx'
      · simp only [decide_eq_true_eq]
        intro hk
        exact hkeys last hlast_mem hk.symm
      · simp only [decide_eq_true_eq]
        intro hx1
        apply hlast_notin
        rw [← hx1]
        exact List.mem_map_of_mem Prod.fst hx'
    unfold LruCache.find?
    rw [hentries, hnone]
    rfl
  · intro e he
    unfold LruCache.find?
    rw [hentries,
      List.find?_cons_of_neg _ (by
        simp only [decide_eq_true_eq]
        intro hk
        exact hkeys e (List.mem_of_mem_dropLast he) hk.symm),
      find?_fst_of_nodup _ e hn1 he]
    rfl
  · exact LruCache.find?_insert_self c k v (by omega)
  · intro d k' v' hle
    have h1 : (d.entries.eraseP (fun e => decide (e.1 = k'))).length ≤ d.entries.length :=
      List.length_eraseP_le _
    simp only [LruCache.insert]
    by_cases hlt :
        d.capacity < ((k', v') :: d.entries.eraseP fun e => decide (e.1 = k')).length
    · rw [if_pos hlt, List.length_dropLast]
      simp only [List.length_cons] at hlt ⊢
      omega
    · rw [if_neg hlt]
      simp only [List.length_cons] at hlt ⊢
      omega

set_option maxRecDepth 10000 in
/-- Witness for C5: a concrete cache holding 256 distinct keys, where
inserting a 257th evicts exactly the least-recently-used `bulkKey 255`. -/
theorem cache_eviction_at_capacity_witness :
    (fullCache.insert (bulkKey 256) (0, [])).entries.length = 256 ∧
    (fullCache.insert (bulkKey 256) (0, [])).entries =
      (bulkKey 256, (0, [])) :: fullCache.entries.dropLast ∧
    (fullCache.insert (bulkKey 256) (0, [])).find? (bulkKey 255) = none ∧
    (∀ e ∈ fullCache.entries.dropLast,
      (fullCache.insert (bulkKey 256) (0, [])).find? e.1 = some e.2) ∧
    (fullCache.insert (bulkKey 256) (0, [])).find? (bulkKey 256) = some (0, []) ∧
    (∀ (d : ExecCache) (k' : CacheKey) (v' : ExecResult),
      d.entries.length ≤ d.capacity →
      (d.insert k' v').entries.length ≤ d.capacity) :=
  cache_eviction_at_capacity fullCache (bulkKey 256) (0, [])
    (bulkKey 255, (0, [])) rfl (by rfl)
    (by
      show ((List.range 256).map bulkKey).Nodup
      exact (List.nodup_range 256).map_on (fun i hi j hj h =>
        bulkKey_inj i j (by have := List.mem_range.mp hi; omega)
          (by have := List.mem_range.mp hj; omega) h))
    (by rfl) (by rfl)

end Playpen
